import Mathlib

/-!
# aerokubot: the update loop and the release fetcher of `main.go`

A shallow embedding of `src/main.go`.  Go strings are Lean strings (every string the
program handles was decoded from JSON, hence is valid UTF-8), Go slices are lists, a nil
pointer is `none`.  Library calls whose code is not part of the repository
(`tgbotapi`, `sort`, `strings`, `humanize`) are either taken as parameters or given a
small documented model.
-/

namespace Aerokubot

/-! ## Constants -/

/-- The constant `welcome` (a raw string literal: it starts and ends with a line break). -/
def welcome : String :=
  "\nWelcome to Aerokube chat! We can help in English 🇬🇧, так же как и по-русски 🇷🇺!\n\nHaving troubles? Please provide your environment and Aerokube tools versions!\n\nЕсть проблемы? Начни вопрос с окружения и используемой версии инструментов Aerokube!\n"

/-- The constant `releasesCommand`. -/
def releasesCommand : String := "releases"

/-- The duration `10 * time.Second` of the timer, in nanoseconds. -/
def timeout : Nat := 10 * 1000000000

/-! ## Telegram data (the fields of `tgbotapi` types that `main.go` reads) -/

/-- The type `tgbotapi.User`, restricted to the fields read by `getUserName`. -/
structure User where
  UserName : String
  FirstName : String
deriving DecidableEq, Repr

/-- The type `tgbotapi.Chat`: its identifier and its `Type` string (`Type` is reserved
in Lean, hence the underscore). -/
structure Chat where
  ID : Int
  Type_ : String
deriving DecidableEq, Repr

/-- Library method `Chat.IsGroup`: the chat type is `"group"`. -/
def Chat.IsGroup (c : Chat) : Bool := c.Type_ == "group"

/-- Library method `Chat.IsSuperGroup`: the chat type is `"supergroup"`. -/
def Chat.IsSuperGroup (c : Chat) : Bool := c.Type_ == "supergroup"

/-- The type `tgbotapi.Message`.  `NewChatMembers` is a pointer to a slice: `none` is the
nil pointer, `some []` a pointer to an empty slice.  `Chat` is a pointer that the Bot
API always sets, so it is kept as a value.  `IsCommand` and `Command` hold the values
returned by the library methods of the same names. -/
structure Message where
  MessageID : Int
  Chat : Chat
  NewChatMembers : Option (List User)
  IsCommand : Bool
  Command : String
deriving DecidableEq, Repr

/-- The type `tgbotapi.Update`: `Message` is a pointer, `none` when nil. -/
structure Update where
  Message : Option Message
deriving DecidableEq, Repr

/-- The type `tgbotapi.MessageConfig`, restricted to the fields `main.go` sets.
`ReplyToMessageID = 0` and `ParseMode = ""` are the zero values (no reply linkage,
plain text). -/
structure MessageConfig where
  ChatID : Int
  Text : String
  ReplyToMessageID : Int
  ParseMode : String
deriving DecidableEq, Repr

/-- Library constructor `tgbotapi.NewMessage(chatID, text)`: every other field is zero. -/
def NewMessage (chatID : Int) (text : String) : MessageConfig :=
  { ChatID := chatID, Text := text, ReplyToMessageID := 0, ParseMode := "" }

/-- Library constant `tgbotapi.ModeMarkdown`. -/
def ModeMarkdown : String := "Markdown"

/-! ## `getUserName` and the welcome branch -/

/-- Function `getUserName` of `main.go`. -/
def getUserName (user : User) : String :=
  if user.UserName = "" then user.FirstName else user.UserName

/-- Library function `strings.Join`: the empty string for no element, the element itself
for one, otherwise the first element followed by, for every further element, the
separator and that element. -/
def stringsJoin (elems : List String) (sep : String) : String :=
  match elems with
  | [] => ""
  | [e] => e
  | e :: rest => rest.foldl (fun b s => b ++ sep ++ s) e

/-- The loop `for _, user := range *NewChatMembers { newUsers = append(newUsers, ...) }`,
started from the nil slice. -/
def newUsers (members : List User) : List String :=
  members.foldl (fun acc user => acc ++ ["@" ++ getUserName user]) []

/-- The value of `joinedUsers` in the welcome branch. -/
def joinedUsers (members : List User) : String :=
  stringsJoin (newUsers members) " "

/-- The text `fmt.Sprintf("Hey, %s\n%s", joinedUsers, welcome)`. -/
def welcomeText (members : List User) : String :=
  "Hey, " ++ joinedUsers members ++ "\n" ++ welcome

/-- What the handler body does that is visible outside it: a call of `send(bot, msg)`
and the statement `go releases(result)`. -/
inductive Effect where
  | send (msg : MessageConfig)
  | goReleases
deriving DecidableEq, Repr

/-- Lines 127-140: the welcome branch of the handler body. -/
def welcomeBranch (m : Message) : List Effect :=
  if m.Chat.IsGroup || m.Chat.IsSuperGroup then
    match m.NewChatMembers with
    | some members => [Effect.send (NewMessage m.Chat.ID (welcomeText members))]
    | none => []
  else []

/-! ## Order of Go strings and `sort.Strings` -/

/-- The UTF-8 encoding of one character, as the list of its byte values.  A Go string is
the sequence of these bytes. -/
def utf8Bytes (c : Char) : List Nat :=
  let v := c.toNat
  if v < 128 then [v]
  else if v < 2048 then [192 + v / 64, 128 + v % 64]
  else if v < 65536 then [224 + v / 4096, 128 + v / 64 % 64, 128 + v % 64]
  else [240 + v / 262144, 128 + v / 4096 % 64, 128 + v / 64 % 64, 128 + v % 64]

/-- The bytes of a Go string, given by its characters. -/
def stringBytes : List Char → List Nat
  | [] => []
  | c :: cs => utf8Bytes c ++ stringBytes cs

/-- Byte-wise lexicographic comparison, Go's `<` on strings: the first differing byte
decides, and a proper prefix is smaller. -/
def bytesLess : List Nat → List Nat → Bool
  | [], [] => false
  | [], _ :: _ => true
  | _ :: _, [] => false
  | a :: as, b :: bs => decide (a < b) || (decide (a = b) && bytesLess as bs)

/-- Go's `a < b` on strings, the `Less` of `sort.StringSlice`. -/
def stringLess (a b : String) : Bool :=
  bytesLess (stringBytes a.data) (stringBytes b.data)

/-- Go's `a <= b` on strings: `b < a` does not hold. -/
def StringLE (a b : String) : Prop := stringLess b a = false

instance : DecidableRel StringLE := fun a b => inferInstanceAs (Decidable (stringLess b a = false))

/-- Library function `sort.Strings`: it sorts the slice into increasing order of Go's
`<`.  The library's algorithm is not part of the repository; insertion sort stands for
it, and `sortStrings_unique` shows that the result of sorting does not depend on the
algorithm. -/
def sortStrings (x : List String) : List String :=
  x.insertionSort StringLE

/-! ## The decoded response and the sort-and-format stage of `releases` -/

/-- The anonymous struct of field `Tag` of `release`. -/
structure Tag where
  Name : String
deriving DecidableEq, Repr

/-- The type `release`.  `PublishedAt` is a `time.Time`, kept as nanoseconds since the
Unix epoch. -/
structure release where
  Url : String
  PublishedAt : Int
  Tag : Tag
deriving DecidableEq, Repr

/-- The anonymous struct of field `Releases` of `repo`. -/
structure Releases where
  Nodes : List release
deriving DecidableEq, Repr

/-- The type `repo`. -/
structure repo where
  Releases : Releases
deriving DecidableEq, Repr

/-- The field `Data` of `result`, a `map[string]repo`: the list of its entries in the order
in which `range` enumerates them (an order Go leaves unspecified).  A map has each key
once: theorems about maps assume `(data.map Prod.fst).Nodup`, and two lists that are
permutations of each other are two enumerations of the same map. -/
abbrev ResultData := List (String × repo)

/-- The map index expression `result.Data[name]`: the zero `repo` for a missing key. -/
def mapIndex (data : ResultData) (name : String) : repo :=
  match data.lookup name with
  | some r => r
  | none => { Releases := { Nodes := [] } }

/-- The loop `for k := range result.Data { names = append(names, k) }`, started from the
nil slice. -/
def rangeKeys (data : ResultData) : List String :=
  data.foldl (fun names kv => names ++ [kv.1]) []

/-- A run-time panic of the Go program.  A panic in a goroutine that nothing recovers
terminates the whole process. -/
inductive Fault where
  | indexOutOfRange
deriving DecidableEq, Repr

/-- The text `fmt.Sprintf("*%s*: [%s](%s) - %s", name, rel.Tag.Name, rel.Url,
humanize.Time(rel.PublishedAt))`.  `humanize now t` stands for the library call
`humanize.Time(t)` made when the clock reads `now`. -/
def releaseLine (humanize : Int → Int → String) (now : Int) (name : String)
    (rel : release) : String :=
  "*" ++ name ++ "*: [" ++ rel.Tag.Name ++ "](" ++ rel.Url ++ ") - "
    ++ humanize now rel.PublishedAt

/-- The loop `for _, name := range names { ... repos = append(repos, ...) }` of lines
267-278, from the current value of `repos`.  The index expression
`repo.Releases.Nodes[0]` panics on an empty slice. -/
def formatLoop (humanize : Int → Int → String) (now : Int) (data : ResultData) :
    List String → List String → Except Fault (List String)
  | [], repos => Except.ok repos
  | name :: rest, repos =>
    match (mapIndex data name).Releases.Nodes with
    | [] => Except.error Fault.indexOutOfRange
    | rel :: _ =>
      formatLoop humanize now data rest (repos ++ [releaseLine humanize now name rel])

/-- Lines 260-280 of `releases`: collect the keys, sort them, format one line per key and
join the lines; the result is the string sent on the channel, or the panic. -/
def sortAndFormat (humanize : Int → Int → String) (now : Int) (data : ResultData) :
    Except Fault String :=
  match formatLoop humanize now data (sortStrings (rangeKeys data)) [] with
  | Except.ok repos => Except.ok (stringsJoin repos "\n")
  | Except.error e => Except.error e

/-- What the outside world gives one run of `releases`: the step that fails, or the
decoded `result.Data`. -/
inductive Upstream where
  | marshalError
  | requestError
  | transportError
  | decodeError
  | decoded (data : ResultData)
deriving DecidableEq, Repr

/-- Function `releases`: `Except.ok none` when it returns without sending on the
channel (lines 228-258), `Except.ok (some s)` when it sends `s`, `Except.error` when it
panics. -/
def releases (humanize : Int → Int → String) (now : Int) :
    Upstream → Except Fault (Option String)
  | Upstream.marshalError => Except.ok none
  | Upstream.requestError => Except.ok none
  | Upstream.transportError => Except.ok none
  | Upstream.decodeError => Except.ok none
  | Upstream.decoded data =>
    match sortAndFormat humanize now data with
    | Except.ok s => Except.ok (some s)
    | Except.error e => Except.error e

/-! ## The command branch and the handler body -/

/-- What one run of the handler body finds outside the update itself: the outcome of
the HTTP exchange made by `releases`, the clock reading `now` seen by `humanize.Time`,
the time `latency` (nanoseconds after `go releases(result)`) at which the goroutine
reaches its last statement, and the choice `timerFirst` that `select` makes when both
of its channels are ready at the same instant. -/
structure FetchEnv where
  upstream : Upstream
  now : Int
  latency : Nat
  timerFirst : Bool
deriving DecidableEq, Repr

/-- The result of one run of the handler body: the effects in program order, the time
spent blocked in `select`, and the panic of the goroutine it started, if any. -/
structure Outcome where
  effects : List Effect
  blocked : Nat
  fault : Option Fault
deriving DecidableEq, Repr

/-- Lines 152-154: the reply to message `m` with text `msg`. -/
def replyMessage (m : Message) (msg : String) : MessageConfig :=
  { NewMessage m.Chat.ID msg with ReplyToMessageID := m.MessageID, ParseMode := ModeMarkdown }

/-- The `select` statement of lines 150-157 as a function of what the fetcher delivers:
`none` when it never sends, `some (t, s)` when it sends `s` at `t` nanoseconds.  The
value received from `result`, or `none` when the timer case is taken. -/
def selectResult (timerFirst : Bool) (fetched : Option (Nat × String)) : Option String :=
  match fetched with
  | none => none
  | some (t, s) =>
    if t < timeout then some s
    else if t = timeout ∧ timerFirst = false then some s
    else none

/-- Lines 150-157: the messages sent by the `select` statement for message `m`. -/
def awaitResult (timerFirst : Bool) (m : Message) (fetched : Option (Nat × String)) :
    List MessageConfig :=
  match selectResult timerFirst fetched with
  | some msg => [replyMessage m msg]
  | none => []

/-- Lines 147-157: the case `releasesCommand` of the switch. -/
def releasesCase (humanize : Int → Int → String) (env : FetchEnv) (m : Message) : Outcome :=
  match releases humanize env.now env.upstream with
  | Except.error e =>
    { effects := [Effect.goReleases], blocked := min env.latency timeout, fault := some e }
  | Except.ok r =>
    let fetched := r.map (fun s => (env.latency, s))
    { effects := Effect.goReleases :: (awaitResult env.timerFirst m fetched).map Effect.send,
      blocked := if (selectResult env.timerFirst fetched).isSome then env.latency else timeout,
      fault := none }

/-- Lines 143-159: the command branch of the handler body. -/
def commandBranch (humanize : Int → Int → String) (env : FetchEnv) (m : Message) : Outcome :=
  if m.IsCommand then
    if m.Command = releasesCommand then releasesCase humanize env m
    else { effects := [], blocked := 0, fault := none }
  else { effects := [], blocked := 0, fault := none }

/-- Lines 118-159: the body of the loop over `updates`, for one update. -/
def handleUpdate (humanize : Int → Int → String) (env : FetchEnv) (update : Update) :
    Outcome :=
  match update.Message with
  | none => { effects := [], blocked := 0, fault := none }
  | some m =>
    let c := commandBranch humanize env m
    { effects := welcomeBranch m ++ c.effects, blocked := c.blocked, fault := c.fault }

/-! ## The consumer loop with a clock -/

/-- An update together with the time (nanoseconds) at which it is put on the channel
`updates` and the environment its handling will find. -/
structure Arrival where
  time : Nat
  update : Update
  env : FetchEnv
deriving DecidableEq, Repr

/-- One iteration of the loop: when the body started on the update and what it did. -/
structure Handled where
  start : Nat
  effects : List Effect
deriving DecidableEq, Repr

/-- Lines 118-148: the effects of the body made before it reaches `select`, namely the
welcome message and, for a `releases` command, the statement `go releases(result)`. -/
def effectsBeforeSelect (update : Update) : List Effect :=
  match update.Message with
  | none => []
  | some m =>
    welcomeBranch m ++
      (if m.IsCommand then
        if m.Command = releasesCommand then [Effect.goReleases] else []
       else [])

/-- Whether the process has been terminated by time `t`: `crashAt` is the time of the
earliest panic of a goroutine started so far, `none` when none of them panics. -/
def terminatedBy (crashAt : Option Nat) (t : Nat) : Bool :=
  match crashAt with
  | some c => decide (c ≤ t)
  | none => false

/-- The time of the earliest panic once a goroutine that panics at time `t` is started. -/
def earliestCrash (crashAt : Option Nat) (t : Nat) : Option Nat :=
  match crashAt with
  | some c => some (min c t)
  | none => some t

/-- Lines 116-160: the loop `for update := range updates`, run by a single goroutine.
`clock` is the time at which the goroutine is back at the `range`; an update is taken
when it has arrived and the goroutine is free; only the wait in `select` takes time.
A fetch goroutine that panics does so `latency` after it was started, and that panic
terminates the process at that time: an update is taken only while the process is
alive, and when the process is terminated before the wait in `select` ends, the body
has made only its effects before `select` and the trace ends there.  A panic that
comes after the timer leaves the loop handling further updates until then. -/
def consumeFrom (humanize : Int → Int → String) :
    Nat → Option Nat → List Arrival → List Handled
  | _, _, [] => []
  | clock, crashAt, a :: rest =>
    let start := max clock a.time
    if terminatedBy crashAt start then []
    else
      let o := handleUpdate humanize a.env a.update
      let crashNext :=
        match o.fault with
        | some _ => earliestCrash crashAt (start + a.env.latency)
        | none => crashAt
      if terminatedBy crashNext (start + o.blocked) then
        [{ start := start, effects := effectsBeforeSelect a.update }]
      else
        { start := start, effects := o.effects } ::
          consumeFrom humanize (start + o.blocked) crashNext rest

/-- The loop started at time `clock` with no goroutine running. -/
def consume (humanize : Int → Int → String) (clock : Nat) (arrivals : List Arrival) :
    List Handled :=
  consumeFrom humanize clock none arrivals

/-! ## A model of the library call `humanize.Time` -/

/-- Library function `Time.Sub` with the values of `time.Duration` (nanoseconds):
the difference, saturated to the range of a signed 64-bit integer. -/
def timeSub (t u : Int) : Int :=
  max (-9223372036854775808) (min 9223372036854775807 (t - u))

/-- One entry of the table `defaultMagnitudes` of `go-humanize`: the bound `D`, the
format (a function of the count and of the label, the Go format string in the comment),
and the divisor `DivBy`, all in nanoseconds. -/
structure RelTimeMagnitude where
  D : Int
  Format : Int → String → String
  DivBy : Int

/-- The constant `time.Second` (nanoseconds). -/
def second : Int := 1000000000
/-- The constant `time.Minute`. -/
def minute : Int := 60 * second
/-- The constant `time.Hour`. -/
def hour : Int := 60 * minute
/-- The constant `humanize.Day`. -/
def day : Int := 24 * hour
/-- The constant `humanize.Week`. -/
def week : Int := 7 * day
/-- The constant `humanize.Month`. -/
def month : Int := 30 * day
/-- The constant `humanize.Year`. -/
def year : Int := 12 * month
/-- The constant `humanize.LongTime`. -/
def longTime : Int := 37 * year

/-- The last entry of `defaultMagnitudes`, `"a long while %s"`. -/
def lastMagnitude : RelTimeMagnitude :=
  { D := 9223372036854775807, Format := fun _ lbl => "a long while " ++ lbl, DivBy := 1 }

/-- The table `defaultMagnitudes` of `go-humanize`. -/
def defaultMagnitudes : List RelTimeMagnitude :=
  [ { D := second, Format := fun _ _ => "now", DivBy := second },                        -- "now"
    { D := 2 * second, Format := fun _ lbl => "1 second " ++ lbl, DivBy := 1 },          -- "1 second %s"
    { D := minute, Format := fun n lbl => toString n ++ " seconds " ++ lbl, DivBy := second }, -- "%d seconds %s"
    { D := 2 * minute, Format := fun _ lbl => "1 minute " ++ lbl, DivBy := 1 },          -- "1 minute %s"
    { D := hour, Format := fun n lbl => toString n ++ " minutes " ++ lbl, DivBy := minute }, -- "%d minutes %s"
    { D := 2 * hour, Format := fun _ lbl => "1 hour " ++ lbl, DivBy := 1 },              -- "1 hour %s"
    { D := day, Format := fun n lbl => toString n ++ " hours " ++ lbl, DivBy := hour },  -- "%d hours %s"
    { D := 2 * day, Format := fun _ lbl => "1 day " ++ lbl, DivBy := 1 },                -- "1 day %s"
    { D := week, Format := fun n lbl => toString n ++ " days " ++ lbl, DivBy := day },   -- "%d days %s"
    { D := 2 * week, Format := fun _ lbl => "1 week " ++ lbl, DivBy := 1 },              -- "1 week %s"
    { D := month, Format := fun n lbl => toString n ++ " weeks " ++ lbl, DivBy := week }, -- "%d weeks %s"
    { D := 2 * month, Format := fun _ lbl => "1 month " ++ lbl, DivBy := 1 },            -- "1 month %s"
    { D := year, Format := fun n lbl => toString n ++ " months " ++ lbl, DivBy := month }, -- "%d months %s"
    { D := 18 * month, Format := fun _ lbl => "1 year " ++ lbl, DivBy := 1 },            -- "1 year %s"
    { D := 2 * year, Format := fun _ lbl => "2 years " ++ lbl, DivBy := 1 },             -- "2 years %s"
    { D := longTime, Format := fun n lbl => toString n ++ " years " ++ lbl, DivBy := year }, -- "%d years %s"
    lastMagnitude ]

/-- Library function `humanize.Time(then)` when the clock reads `now`, that is
`RelTime(then, now, "ago", "from now")`: the first magnitude whose bound exceeds the
distance between the two instants (the last magnitude when there is none) formats the
distance divided by its divisor. -/
def humanizeTime (now thn : Int) : String :=
  let lbl := if now < thn then "from now" else "ago"
  let diff := if now < thn then timeSub thn now else timeSub now thn
  let mag := (defaultMagnitudes.find? (fun m => decide (diff < m.D))).getD lastMagnitude
  mag.Format (diff / mag.DivBy) lbl

/-! ## Concrete inputs -/

/-- Two new members: one with a handle, one with a display name only. -/
def aliceAndBob : List User :=
  [{ UserName := "alice", FirstName := "" }, { UserName := "", FirstName := "Bob" }]

/-- A group chat. -/
def groupChat : Chat := { ID := -100, Type_ := "group" }

/-- A private chat. -/
def privateChat : Chat := { ID := 42, Type_ := "private" }

/-- A group message whose new-member list is present and empty (the JSON field
`"new_chat_members": []`), and which is no command. -/
def emptyJoinMessage : Message :=
  { MessageID := 7, Chat := groupChat, NewChatMembers := some [], IsCommand := false,
    Command := "" }

/-- A group message that carries new members and is a `releases` command as well. -/
def joinAndReleasesMessage : Message :=
  { MessageID := 8, Chat := groupChat, NewChatMembers := some aliceAndBob,
    IsCommand := true, Command := "releases" }

/-- A membership change in a private chat that is also a command of another name. -/
def privateJoinStartMessage : Message :=
  { MessageID := 9, Chat := privateChat, NewChatMembers := some aliceAndBob,
    IsCommand := true, Command := "start" }

/-- A `releases` command in a private chat. -/
def releasesMessage : Message :=
  { MessageID := 10, Chat := privateChat, NewChatMembers := none, IsCommand := true,
    Command := "releases" }

/-- A message that is neither a membership change nor a command. -/
def plainMessage : Message :=
  { MessageID := 11, Chat := privateChat, NewChatMembers := none, IsCommand := false,
    Command := "" }

/-- A release published at the epoch. -/
def someRelease (tag : String) : release :=
  { Url := "https://example.org/" ++ tag, PublishedAt := 0, Tag := { Name := tag } }

/-- A project with exactly one release. -/
def oneRelease (tag : String) : repo := { Releases := { Nodes := [someRelease tag] } }

/-- A decoded response with the single project `cm`. -/
def oneProjectData : ResultData := [("cm", oneRelease "1.8.5")]

/-- A decoded response in which project `cm` has an empty release list (the JSON
`"cm": {"releases": {"nodes": []}}`) and project `ggr` has one release. -/
def emptyProjectData : ResultData :=
  [("ggr", oneRelease "1.7.2"), ("cm", { Releases := { Nodes := [] } })]

/-- A decoded response for the six projects of the query, enumerated in the order of the
query. -/
def sixProjectData : ResultData :=
  [("selenoid", oneRelease "1.11.3"), ("moon", oneRelease "2.7.2"), ("cm", oneRelease "1.8.5"),
   ("selenoid_ui", oneRelease "1.10.11"), ("ggr", oneRelease "1.7.2"),
   ("ggr_ui", oneRelease "1.2.0")]

/-- An environment in which the fetch answers after one second, three days after the
release was published. -/
def promptEnv : FetchEnv :=
  { upstream := Upstream.decoded oneProjectData, now := 3 * day, latency := 1000000000,
    timerFirst := false }

/-- An environment in which the data source answers only after sixty seconds. -/
def slowEnv : FetchEnv :=
  { upstream := Upstream.decoded oneProjectData, now := 3 * day, latency := 60000000000,
    timerFirst := false }

/-- An environment in which the data source answers only after sixty seconds, with a
response in which a project has no release. -/
def slowEmptyProjectEnv : FetchEnv :=
  { upstream := Upstream.decoded emptyProjectData, now := 3 * day, latency := 60000000000,
    timerFirst := false }

/-- An environment in which the decoded response has a project without releases. -/
def emptyProjectEnv : FetchEnv :=
  { upstream := Upstream.decoded emptyProjectData, now := 3 * day, latency := 1000000000,
    timerFirst := false }

/-! ## Lemmas on joining and appending -/

theorem foldl_join_eq_go (sep : String) (rest : List String) (acc : String) :
    rest.foldl (fun b s => b ++ sep ++ s) acc = String.intercalate.go acc sep rest := by
  induction rest generalizing acc with
  | nil => rfl
  | cons a as ih => simpa [String.intercalate.go] using ih (acc ++ sep ++ a)

/-- The model of `strings.Join` is the library's `String.intercalate`. -/
theorem stringsJoin_eq_intercalate (elems : List String) (sep : String) :
    stringsJoin elems sep = sep.intercalate elems := by
  match elems with
  | [] => rfl
  | [e] => rfl
  | e :: f :: rest =>
    simp only [stringsJoin, String.intercalate]
    exact foldl_join_eq_go sep (f :: rest) e

theorem foldl_append_singleton {α β : Type} (f : α → β) (l : List α) (init : List β) :
    l.foldl (fun acc x => acc ++ [f x]) init = init ++ l.map f := by
  induction l generalizing init with
  | nil => simp
  | cons a as ih => simp [ih]

theorem newUsers_eq_map (members : List User) :
    newUsers members = members.map (fun user => "@" ++ getUserName user) := by
  simp [newUsers, foldl_append_singleton (fun user : User => "@" ++ getUserName user)]

theorem rangeKeys_eq_map (data : ResultData) : rangeKeys data = data.map Prod.fst := by
  simp [rangeKeys, foldl_append_singleton (fun kv : String × repo => kv.1)]

/-! ## Lemmas on the order of strings -/

theorem bytesLess_irrefl (x : List Nat) : bytesLess x x = false := by
  induction x with
  | nil => rfl
  | cons a as ih => simp [bytesLess, ih]

theorem bytesLess_asymm : ∀ (x y : List Nat), bytesLess x y = true → bytesLess y x = false
  | [], [], h => by simp [bytesLess] at h
  | [], _ :: _, _ => by simp [bytesLess]
  | _ :: _, [], h => by simp [bytesLess] at h
  | a :: as, b :: bs, h => by
    simp only [bytesLess, Bool.or_eq_true, Bool.and_eq_true, decide_eq_true_eq] at h
    simp only [bytesLess, Bool.or_eq_false_iff, Bool.and_eq_false_iff, decide_eq_false_iff_not]
    rcases h with h | ⟨h1, h2⟩
    · exact ⟨by omega, Or.inl (by omega)⟩
    · exact ⟨by omega, Or.inr (bytesLess_asymm as bs h2)⟩

theorem bytesLess_connex : ∀ (x y : List Nat),
    bytesLess x y = false → bytesLess y x = false → x = y
  | [], [], _, _ => rfl
  | [], _ :: _, h, _ => by simp [bytesLess] at h
  | _ :: _, [], _, h => by simp [bytesLess] at h
  | a :: as, b :: bs, h1, h2 => by
    simp only [bytesLess, Bool.or_eq_false_iff, Bool.and_eq_false_iff,
      decide_eq_false_iff_not] at h1 h2
    have hab : a = b := by omega
    subst hab
    have := bytesLess_connex as bs (by simpa using h1.2) (by simpa using h2.2)
    rw [this]

theorem bytesLess_cotrans : ∀ (x y z : List Nat),
    bytesLess x z = true → bytesLess x y = true ∨ bytesLess y z = true
  | [], _, [], h => by simp [bytesLess] at h
  | [], [], _ :: _, _ => by simp [bytesLess]
  | [], _ :: _, _ :: _, _ => by simp [bytesLess]
  | _ :: _, _, [], h => by simp [bytesLess] at h
  | _ :: _, [], _ :: _, _ => by simp [bytesLess]
  | a :: as, b :: bs, c :: cs, h => by
    simp only [bytesLess, Bool.or_eq_true, Bool.and_eq_true, decide_eq_true_eq] at h ⊢
    rcases h with h | ⟨h1, h2⟩
    · by_cases hab : a < b
      · exact Or.inl (Or.inl hab)
      · by_cases hbc : b < c
        · exact Or.inr (Or.inl hbc)
        · omega
    · subst h1
      by_cases hab : a < b
      · exact Or.inl (Or.inl hab)
      · by_cases hba : b < a
        · exact Or.inr (Or.inl hba)
        · have hab2 : a = b := by omega
          subst hab2
          rcases bytesLess_cotrans as bs cs h2 with h3 | h3
          · exact Or.inl (Or.inr ⟨rfl, h3⟩)
          · exact Or.inr (Or.inr ⟨rfl, h3⟩)

theorem utf8Bytes_append_inj (c d : Char) (x y : List Nat)
    (h : utf8Bytes c ++ x = utf8Bytes d ++ y) : c.toNat = d.toNat ∧ x = y := by
  unfold utf8Bytes at h
  simp only at h
  split_ifs at h <;>
    simp only [List.cons_append, List.nil_append, List.cons.injEq] at h <;>
    first
      | (exfalso; omega)
      | (refine ⟨?_, ?_⟩
         · omega
         · tauto)

theorem utf8Bytes_ne_nil (c : Char) : utf8Bytes c ≠ [] := by
  unfold utf8Bytes
  simp only
  split_ifs <;> simp

theorem char_toNat_inj (c d : Char) (h : c.toNat = d.toNat) : c = d := by
  apply Char.ext
  apply UInt32.ext
  exact h

theorem stringBytes_inj : ∀ (cs ds : List Char), stringBytes cs = stringBytes ds → cs = ds
  | [], [], _ => rfl
  | [], d :: ds, h => by
    exfalso
    simp only [stringBytes] at h
    exact utf8Bytes_ne_nil d (List.append_eq_nil.mp h.symm).1
  | c :: cs, [], h => by
    exfalso
    simp only [stringBytes] at h
    exact utf8Bytes_ne_nil c (List.append_eq_nil.mp h).1
  | c :: cs, d :: ds, h => by
    obtain ⟨h1, h2⟩ := utf8Bytes_append_inj c d _ _ h
    rw [char_toNat_inj c d h1, stringBytes_inj cs ds h2]

instance : IsTotal String StringLE :=
  ⟨fun a b => by
    unfold StringLE stringLess
    cases h : bytesLess (stringBytes b.data) (stringBytes a.data) with
    | false => exact Or.inl rfl
    | true => exact Or.inr (bytesLess_asymm _ _ h)⟩

instance : IsTrans String StringLE :=
  ⟨fun a b c hab hbc => by
    unfold StringLE stringLess at *
    cases h : bytesLess (stringBytes c.data) (stringBytes a.data) with
    | false => rfl
    | true =>
      rcases bytesLess_cotrans _ (stringBytes b.data) _ h with h1 | h1
      · rw [h1] at hbc; cases hbc
      · rw [h1] at hab; cases hab⟩

instance : IsAntisymm String StringLE :=
  ⟨fun a b hab hba => by
    unfold StringLE stringLess at *
    exact String.ext (stringBytes_inj _ _ (bytesLess_connex _ _ hba hab))⟩

/-! ## Lemmas on `sort.Strings` -/

theorem sortStrings_perm (x : List String) : (sortStrings x).Perm x :=
  List.perm_insertionSort StringLE x

theorem sortStrings_sorted (x : List String) : (sortStrings x).Sorted StringLE :=
  List.sorted_insertionSort StringLE x

/-- Whatever algorithm sorts the slice, the result is the one of `sortStrings`: an
increasing rearrangement of a list of strings is unique. -/
theorem sortStrings_unique (x l : List String) (hperm : l.Perm x)
    (hsorted : l.Sorted StringLE) : l = sortStrings x :=
  List.eq_of_perm_of_sorted (hperm.trans (sortStrings_perm x).symm) hsorted
    (sortStrings_sorted x)

theorem sortStrings_congr {x y : List String} (h : x.Perm y) :
    sortStrings x = sortStrings y :=
  sortStrings_unique y (sortStrings x) ((sortStrings_perm x).trans h) (sortStrings_sorted x)

theorem stringLess_of_le_of_ne {a b : String} (hle : StringLE a b) (hne : a ≠ b) :
    stringLess a b = true := by
  cases h : stringLess a b with
  | true => rfl
  | false => exact absurd (antisymm (r := StringLE) hle h) hne

theorem sortStrings_strict (x : List String) (hx : x.Nodup) :
    (sortStrings x).Pairwise (fun a b => stringLess a b = true) := by
  have hs : (sortStrings x).Pairwise StringLE := sortStrings_sorted x
  have hn : (sortStrings x).Pairwise (fun a b => a ≠ b) :=
    ((sortStrings_perm x).nodup_iff).mpr hx
  exact (hs.and hn).imp (fun h => stringLess_of_le_of_ne h.1 h.2)

/-! ## Lemmas on the map and on the formatting loop -/

theorem lookup_of_mem : ∀ (data : ResultData) (k : String) (r : repo),
    (data.map Prod.fst).Nodup → (k, r) ∈ data → data.lookup k = some r
  | [], _, _, _, h => by simp at h
  | (a, b) :: l, k, r, hnd, h => by
    simp only [List.map_cons, List.nodup_cons, List.mem_map, Prod.exists,
      exists_and_right, exists_eq_right, not_exists] at hnd
    simp only [List.mem_cons, Prod.mk.injEq] at h
    rcases h with ⟨h1, h2⟩ | h
    · subst h1 h2
      simp [List.lookup]
    · have hne : k ≠ a := fun hk => hnd.1 r (hk ▸ h)
      have hbeq : (k == a) = false := by simpa using hne
      simp only [List.lookup, hbeq]
      exact lookup_of_mem l k r hnd.2 h

theorem mapIndex_of_mem (data : ResultData) (kv : String × repo)
    (hnd : (data.map Prod.fst).Nodup) (h : kv ∈ data) : mapIndex data kv.1 = kv.2 := by
  simp [mapIndex, lookup_of_mem data kv.1 kv.2 hnd h]

theorem lookup_none_of_not_mem : ∀ (data : ResultData) (k : String),
    k ∉ data.map Prod.fst → data.lookup k = none
  | [], _, _ => rfl
  | (a, b) :: l, k, h => by
    simp only [List.map_cons, List.mem_cons, not_or] at h
    have hbeq : (k == a) = false := by simpa using h.1
    simp only [List.lookup, hbeq]
    exact lookup_none_of_not_mem l k h.2

/-- Two enumerations of the same map answer every index expression alike. -/
theorem mapIndex_perm {d1 d2 : ResultData} (hnd : (d1.map Prod.fst).Nodup)
    (hperm : d1.Perm d2) (name : String) : mapIndex d1 name = mapIndex d2 name := by
  have hnd2 : (d2.map Prod.fst).Nodup := (hperm.map Prod.fst).nodup_iff.mp hnd
  by_cases hk : name ∈ d1.map Prod.fst
  · obtain ⟨kv, hkv, rfl⟩ := List.mem_map.mp hk
    rw [mapIndex_of_mem d1 kv hnd hkv, mapIndex_of_mem d2 kv hnd2 (hperm.mem_iff.mp hkv)]
  · have hk2 : name ∉ d2.map Prod.fst := fun h => hk ((hperm.map Prod.fst).mem_iff.mpr h)
    simp [mapIndex, lookup_none_of_not_mem d1 name hk, lookup_none_of_not_mem d2 name hk2]

theorem formatLoop_congr (humanize : Int → Int → String) (now : Int) {d1 d2 : ResultData}
    (h : ∀ name, mapIndex d1 name = mapIndex d2 name) :
    ∀ (names repos : List String),
      formatLoop humanize now d1 names repos = formatLoop humanize now d2 names repos
  | [], _ => rfl
  | name :: rest, repos => by
    simp only [formatLoop, h name]
    cases (mapIndex d2 name).Releases.Nodes with
    | nil => rfl
    | cons rel _ => exact formatLoop_congr humanize now h rest _

/-- The loop either meets a key whose release list is empty and panics, or appends one
line per key, in the order of the keys, built from the first release of the key. -/
theorem formatLoop_spec (humanize : Int → Int → String) (now : Int) (data : ResultData) :
    ∀ (names repos : List String),
      ((∃ name ∈ names, (mapIndex data name).Releases.Nodes = []) ∧
        formatLoop humanize now data names repos = Except.error Fault.indexOutOfRange) ∨
      (∃ lines : List String,
        List.Forall₂ (fun name line => ∃ rel rest,
          (mapIndex data name).Releases.Nodes = rel :: rest ∧
          line = releaseLine humanize now name rel) names lines ∧
        formatLoop humanize now data names repos = Except.ok (repos ++ lines))
  | [], repos => Or.inr ⟨[], List.Forall₂.nil, by simp [formatLoop]⟩
  | name :: rest, repos => by
    cases hn : (mapIndex data name).Releases.Nodes with
    | nil =>
      exact Or.inl ⟨⟨name, List.mem_cons_self _ _, hn⟩, by simp [formatLoop, hn]⟩
    | cons rel more =>
      rcases formatLoop_spec humanize now data rest
          (repos ++ [releaseLine humanize now name rel]) with ⟨⟨k, hk, hk2⟩, he⟩ | ⟨lines, hl, he⟩
      · exact Or.inl ⟨⟨k, List.mem_cons_of_mem _ hk, hk2⟩, by simp [formatLoop, hn, he]⟩
      · refine Or.inr ⟨releaseLine humanize now name rel :: lines,
          List.Forall₂.cons ⟨rel, more, hn, rfl⟩ hl, ?_⟩
        simp [formatLoop, hn, he]

/-! ## The handler body: which updates act, and how often -/

theorem welcomeBranch_cases (m : Message) :
    welcomeBranch m = [] ∨
      ∃ members, m.NewChatMembers = some members ∧
        welcomeBranch m = [Effect.send (NewMessage m.Chat.ID (welcomeText members))] := by
  unfold welcomeBranch
  split_ifs
  · cases h : m.NewChatMembers with
    | none => exact Or.inl rfl
    | some members => exact Or.inr ⟨members, rfl, rfl⟩
  · exact Or.inl rfl

theorem welcomeBranch_ne_nil_iff (m : Message) :
    welcomeBranch m ≠ [] ↔
      (m.Chat.IsGroup = true ∨ m.Chat.IsSuperGroup = true) ∧ m.NewChatMembers ≠ none := by
  unfold welcomeBranch
  cases h : m.NewChatMembers <;> cases hg : m.Chat.IsGroup <;>
    cases hs : m.Chat.IsSuperGroup <;> simp

theorem awaitResult_cases (timerFirst : Bool) (m : Message) (fetched : Option (Nat × String)) :
    awaitResult timerFirst m fetched = [] ∨
      ∃ s, awaitResult timerFirst m fetched = [replyMessage m s] := by
  unfold awaitResult
  cases selectResult timerFirst fetched with
  | none => exact Or.inl rfl
  | some s => exact Or.inr ⟨s, rfl⟩

theorem releasesCase_effects_cases (humanize : Int → Int → String) (env : FetchEnv)
    (m : Message) :
    (releasesCase humanize env m).effects = [Effect.goReleases] ∨
      ∃ s, (releasesCase humanize env m).effects =
        [Effect.goReleases, Effect.send (replyMessage m s)] := by
  unfold releasesCase
  cases releases humanize env.now env.upstream with
  | error e => exact Or.inl rfl
  | ok r =>
    rcases awaitResult_cases env.timerFirst m (r.map (fun s => (env.latency, s))) with h | ⟨s, h⟩
    · exact Or.inl (by simp [h])
    · exact Or.inr ⟨s, by simp [h]⟩

/-- C1, as stated, fails: a group message whose new-member list is present but empty is
neither a message with a non-empty list of new members nor a `releases` command, and the
handler body still sends a welcome message (with an empty mention line). -/
theorem empty_member_list_is_welcomed :
    (emptyJoinMessage.Chat.IsGroup = true ∧ emptyJoinMessage.NewChatMembers = some []) ∧
    ¬ (emptyJoinMessage.IsCommand = true ∧ emptyJoinMessage.Command = "releases") ∧
    (handleUpdate humanizeTime promptEnv { Message := some emptyJoinMessage }).effects =
      [Effect.send { ChatID := -100, Text := "Hey, \n" ++ welcome, ReplyToMessageID := 0,
                     ParseMode := "" }] := by
  refine ⟨⟨by decide, rfl⟩, by decide, rfl⟩

/-- C1, amended: an update that is neither a message in a group or supergroup chat whose
new-member list is present (empty or not) nor a command message named `releases` makes
the handler body send nothing and start no fetch (and it does not wait). -/
theorem no_action_for_other_updates (humanize : Int → Int → String) (env : FetchEnv)
    (update : Update)
    (ha : ∀ m, update.Message = some m →
      ¬ ((m.Chat.IsGroup = true ∨ m.Chat.IsSuperGroup = true) ∧ m.NewChatMembers ≠ none))
    (hb : ∀ m, update.Message = some m → ¬ (m.IsCommand = true ∧ m.Command = "releases")) :
    handleUpdate humanize env update = { effects := [], blocked := 0, fault := none } := by
  unfold handleUpdate
  cases hm : update.Message with
  | none => rfl
  | some m =>
    have hw : welcomeBranch m = [] := by
      by_contra h
      exact ha m hm ((welcomeBranch_ne_nil_iff m).mp h)
    have hc : commandBranch humanize env m = { effects := [], blocked := 0, fault := none } := by
      unfold commandBranch
      split_ifs with h1 h2
      · exact absurd ⟨h1, h2⟩ (hb m hm)
      · rfl
      · rfl
    simp [hw, hc]

/-- The amended C1 at concrete inputs: a membership change in a private chat that is a
command of another name, and an update without message. -/
theorem no_action_for_other_updates_witness :
    handleUpdate humanizeTime promptEnv { Message := some privateJoinStartMessage } =
      { effects := [], blocked := 0, fault := none } :=
  no_action_for_other_updates humanizeTime promptEnv { Message := some privateJoinStartMessage }
    (by
      intro m hm
      cases hm
      decide)
    (by
      intro m hm
      cases hm
      decide)

/-- C2, as stated, fails: for a group message that carries new members and is a
`releases` command, the handler body sends the welcome message, starts the fetch and
sends the reply. -/
theorem welcome_and_fetch_for_one_update :
    (handleUpdate humanizeTime promptEnv { Message := some joinAndReleasesMessage }).effects =
      [Effect.send { ChatID := -100, Text := "Hey, @alice @Bob\n" ++ welcome,
                     ReplyToMessageID := 0, ParseMode := "" },
       Effect.goReleases,
       Effect.send { ChatID := -100,
                     Text := "*cm*: [1.8.5](https://example.org/1.8.5) - 3 days ago",
                     ReplyToMessageID := 8, ParseMode := "Markdown" }] := by
  rfl

/-- C2, amended: for every update the effects of the handler body are at most one welcome
message followed by at most one fetch, itself followed by at most one reply; a welcome
and a fetch both occur exactly when the update is a group or supergroup message whose
new-member list is present and which is a `releases` command. -/
theorem at_most_one_welcome_and_one_fetch (humanize : Int → Int → String) (env : FetchEnv)
    (update : Update) :
    ∃ W C : List Effect,
      (handleUpdate humanize env update).effects = W ++ C ∧
      (W = [] ∨ ∃ chatID text, W = [Effect.send (NewMessage chatID text)]) ∧
      (C = [] ∨ C = [Effect.goReleases] ∨
        ∃ m s, C = [Effect.goReleases, Effect.send (replyMessage m s)]) ∧
      ((W ≠ [] ∧ C ≠ []) ↔
        ∃ m, update.Message = some m ∧
          (m.Chat.IsGroup = true ∨ m.Chat.IsSuperGroup = true) ∧ m.NewChatMembers ≠ none ∧
          m.IsCommand = true ∧ m.Command = "releases") := by
  cases hm : update.Message with
  | none =>
    refine ⟨[], [], by simp [handleUpdate, hm], Or.inl rfl, Or.inl rfl, ?_⟩
    simp
  | some m =>
    refine ⟨welcomeBranch m, (commandBranch humanize env m).effects,
      by simp [handleUpdate, hm], ?_, ?_, ?_⟩
    · rcases welcomeBranch_cases m with h | ⟨members, _, h⟩
      · exact Or.inl h
      · exact Or.inr ⟨_, _, h⟩
    · unfold commandBranch
      split_ifs
      · rcases releasesCase_effects_cases humanize env m with h | ⟨s, h⟩
        · exact Or.inr (Or.inl h)
        · exact Or.inr (Or.inr ⟨m, s, h⟩)
      · exact Or.inl rfl
      · exact Or.inl rfl
    · have hc : (commandBranch humanize env m).effects ≠ [] ↔
          (m.IsCommand = true ∧ m.Command = "releases") := by
        unfold commandBranch
        split_ifs with h1 h2
        · constructor
          · intro _
            exact ⟨h1, h2⟩
          · intro _
            rcases releasesCase_effects_cases humanize env m with h | ⟨s, h⟩ <;> simp [h]
        · constructor
          · intro h
            exact absurd rfl h
          · intro h
            exact absurd h.2 h2
        · constructor
          · intro h
            exact absurd rfl h
          · intro h
            exact absurd h.1 h1
      rw [welcomeBranch_ne_nil_iff, hc]
      constructor
      · rintro ⟨⟨h1, h2⟩, h3, h4⟩
        exact ⟨m, rfl, h1, h2, h3, h4⟩
      · rintro ⟨m2, hm2, h1, h2, h3, h4⟩
        cases hm2
        exact ⟨⟨h1, h2⟩, h3, h4⟩

/-! ## The welcome text -/

theorem foldl_append_eq_join (l : List String) (acc : String) :
    l.foldl (fun b s => b ++ s) acc = acc ++ String.join l := by
  induction l generalizing acc with
  | nil => simp [String.join]
  | cons a as ih =>
    have h1 := ih (acc ++ a)
    have h2 := ih ("" ++ a)
    simp only [List.foldl_cons, String.join] at *
    rw [h1, h2, String.append_assoc]
    simp

theorem string_join_cons (a : String) (l : List String) :
    String.join (a :: l) = a ++ String.join l := by
  have h := foldl_append_eq_join l ("" ++ a)
  simp only [String.join, List.foldl_cons] at *
  rw [h]
  simp

theorem foldl_sep_eq_join (sep : String) (rest : List String) (acc : String) :
    rest.foldl (fun b s => b ++ sep ++ s) acc
      = acc ++ String.join (rest.map (fun s => sep ++ s)) := by
  induction rest generalizing acc with
  | nil => simp [String.join]
  | cons a as ih =>
    simp only [List.foldl_cons, List.map_cons, string_join_cons, ih]
    simp [String.append_assoc]

/-- Function `strings.Join` on a non-empty slice: the first element, then every further
element preceded by the separator. -/
theorem stringsJoin_cons (e : String) (rest : List String) (sep : String) :
    stringsJoin (e :: rest) sep = e ++ String.join (rest.map (fun s => sep ++ s)) := by
  cases rest with
  | nil => simp [stringsJoin, String.join]
  | cons f more => simp only [stringsJoin, foldl_sep_eq_join]

/-- C4: `getUserName` returns the handle when the handle is a non-empty string and the
display name when the handle is empty, and never anything else; the returned string is
the display name exactly when the handle is empty or equal to the display name. -/
theorem getUserName_spec (user : User) :
    (user.UserName ≠ "" → getUserName user = user.UserName) ∧
    (user.UserName = "" → getUserName user = user.FirstName) ∧
    (getUserName user = user.UserName ∨ getUserName user = user.FirstName) ∧
    (getUserName user = user.FirstName ↔
      (user.UserName = "" ∨ user.UserName = user.FirstName)) := by
  unfold getUserName
  by_cases h : user.UserName = ""
  · simp [h]
  · simp [h]

/-- C3: for a non-empty list of new members in a group or supergroup message, the mention
line is `"@" + getUserName(member)` for each member in arrival order, joined by single
spaces with no separator before the first or after the last, and the handler body first
sends, to the chat of the message, the text `"Hey, " + line + "\n" + welcome` as a plain
message without reply linkage. -/
theorem welcome_mention_line (humanize : Int → Int → String) (env : FetchEnv) (m : Message)
    (members : List User)
    (hchat : m.Chat.IsGroup = true ∨ m.Chat.IsSuperGroup = true)
    (hnew : m.NewChatMembers = some members) (hne : members ≠ []) :
    joinedUsers members
      = " ".intercalate (members.map (fun user => "@" ++ getUserName user)) ∧
    (∃ first rest, members = first :: rest ∧
      joinedUsers members = "@" ++ getUserName first
        ++ String.join (rest.map (fun user => " " ++ ("@" ++ getUserName user)))) ∧
    (handleUpdate humanize env { Message := some m }).effects.head? =
      some (Effect.send { ChatID := m.Chat.ID,
                          Text := "Hey, " ++ joinedUsers members ++ "\n" ++ welcome,
                          ReplyToMessageID := 0, ParseMode := "" }) := by
  refine ⟨?_, ?_, ?_⟩
  · rw [joinedUsers, stringsJoin_eq_intercalate, newUsers_eq_map]
  · cases members with
    | nil => exact absurd rfl hne
    | cons first rest =>
      refine ⟨first, rest, rfl, ?_⟩
      rw [joinedUsers, newUsers_eq_map, List.map_cons, stringsJoin_cons, List.map_map]
      rfl
  · have hw : welcomeBranch m
        = [Effect.send (NewMessage m.Chat.ID (welcomeText members))] := by
      unfold welcomeBranch
      have hg : (m.Chat.IsGroup || m.Chat.IsSuperGroup) = true := by
        rcases hchat with h | h <;> simp [h]
      simp [hg, hnew]
    simp [handleUpdate, hw, NewMessage, welcomeText]

/-- C3 at the members `alice` (a handle) and `Bob` (a display name only): the mention
line is `"@alice @Bob"`. -/
theorem welcome_mention_line_witness :
    joinedUsers aliceAndBob = "@alice @Bob" ∧
    (handleUpdate humanizeTime promptEnv { Message := some joinAndReleasesMessage }).effects.head? =
      some (Effect.send { ChatID := -100, Text := "Hey, @alice @Bob\n" ++ welcome,
                          ReplyToMessageID := 0, ParseMode := "" }) :=
  have h := welcome_mention_line humanizeTime promptEnv joinAndReleasesMessage aliceAndBob
    (Or.inl (by decide)) rfl (by decide)
  ⟨by decide, h.2.2⟩

/-! ## The release fetcher: sorted lines -/

set_option maxRecDepth 100000

/-- The number of occurrences of the line break in the join of the slice that starts with
`acc`, when the further elements contain none. -/
theorem count_foldl_newline (rest : List String) (acc : String)
    (h : ∀ line ∈ rest, Char.ofNat 10 ∉ line.data) :
    (rest.foldl (fun b s => b ++ "\n" ++ s) acc).data.count (Char.ofNat 10)
      = acc.data.count (Char.ofNat 10) + rest.length := by
  induction rest generalizing acc with
  | nil => simp
  | cons a as ih =>
    have ha : a.data.count (Char.ofNat 10) = 0 :=
      List.count_eq_zero.mpr (h a (List.mem_cons_self _ _))
    have hnl : ("\n" : String).data.count (Char.ofNat 10) = 1 := by decide
    rw [List.foldl_cons, ih _ (fun line hl => h line (List.mem_cons_of_mem _ hl))]
    simp only [String.data_append, List.count_append, ha, hnl, List.length_cons]
    omega

/-- A reply whose lines contain no line break has one line break less than lines. -/
theorem count_newline_stringsJoin (lines : List String)
    (h : ∀ line ∈ lines, Char.ofNat 10 ∉ line.data) :
    (stringsJoin lines "\n").data.count (Char.ofNat 10) = lines.length - 1 := by
  match lines with
  | [] => simp [stringsJoin]
  | [e] =>
    simpa [stringsJoin] using List.count_eq_zero.mpr (h e (List.mem_cons_self _ _))
  | e :: f :: rest =>
    have he : e.data.count (Char.ofNat 10) = 0 :=
      List.count_eq_zero.mpr (h e (List.mem_cons_self _ _))
    simp only [stringsJoin]
    rw [count_foldl_newline (f :: rest) e (fun line hl => h line (List.mem_cons_of_mem _ hl)), he]
    simp

theorem entries_perm (data : ResultData) (hnd : (data.map Prod.fst).Nodup)
    (keys : List String) (hk : keys.Perm (data.map Prod.fst)) :
    (keys.map (fun k => (k, mapIndex data k))).Perm data := by
  have h1 := hk.map (fun k => (k, mapIndex data k))
  have h2 : (data.map Prod.fst).map (fun k => (k, mapIndex data k)) = data := by
    rw [List.map_map]
    conv_rhs => rw [← List.map_id data]
    apply List.map_congr_left
    intro kv hkv
    simp [mapIndex_of_mem data kv hnd hkv]
  rw [h2] at h1
  exact h1

theorem nodes_ne_nil_of_key (data : ResultData) (hnd : (data.map Prod.fst).Nodup)
    (hne : ∀ kv ∈ data, kv.2.Releases.Nodes ≠ []) (name : String)
    (hname : name ∈ data.map Prod.fst) : (mapIndex data name).Releases.Nodes ≠ [] := by
  obtain ⟨kv, hkv, rfl⟩ := List.mem_map.mp hname
  rw [mapIndex_of_mem data kv hnd hkv]
  exact hne kv hkv

/-- When every project has a release, the sort-and-format stage sends one line per key,
for the keys in increasing order. -/
theorem sortAndFormat_ok (humanize : Int → Int → String) (now : Int) (data : ResultData)
    (hnd : (data.map Prod.fst).Nodup) (hne : ∀ kv ∈ data, kv.2.Releases.Nodes ≠ []) :
    ∃ lines : List String,
      List.Forall₂ (fun name line => ∃ rel rest,
          (mapIndex data name).Releases.Nodes = rel :: rest ∧
          line = releaseLine humanize now name rel) (sortStrings (rangeKeys data)) lines ∧
      sortAndFormat humanize now data = Except.ok (stringsJoin lines "\n") := by
  rcases formatLoop_spec humanize now data (sortStrings (rangeKeys data)) [] with
    ⟨⟨name, hmem, hnil⟩, _⟩ | ⟨lines, hl, he⟩
  · exfalso
    have hkey : name ∈ data.map Prod.fst := by
      rw [← rangeKeys_eq_map]
      exact (sortStrings_perm _).mem_iff.mp hmem
    exact nodes_ne_nil_of_key data hnd hne name hkey hnil
  · exact ⟨lines, hl, by simp [sortAndFormat, he]⟩

/-- When some project has no release, the sort-and-format stage panics. -/
theorem sortAndFormat_faults (humanize : Int → Int → String) (now : Int) (data : ResultData)
    (hnd : (data.map Prod.fst).Nodup) (kv : String × repo) (hkv : kv ∈ data)
    (hnil : kv.2.Releases.Nodes = []) :
    sortAndFormat humanize now data = Except.error Fault.indexOutOfRange := by
  rcases formatLoop_spec humanize now data (sortStrings (rangeKeys data)) [] with
    ⟨_, he⟩ | ⟨lines, hl, -⟩
  · simp [sortAndFormat, he]
  · exfalso
    have hmem : kv.1 ∈ sortStrings (rangeKeys data) := by
      apply (sortStrings_perm _).mem_iff.mpr
      rw [rangeKeys_eq_map]
      exact List.mem_map_of_mem _ hkv
    have hall : ∀ name ∈ sortStrings (rangeKeys data),
        (mapIndex data name).Releases.Nodes ≠ [] := by
      generalize sortStrings (rangeKeys data) = names at hl
      induction hl with
      | nil => simp
      | cons hhead _ ih =>
        intro name hname
        rcases List.mem_cons.mp hname with h | h
        · obtain ⟨rel, rest, hr, _⟩ := hhead
          rw [h, hr]
          simp
        · exact ih name h
    exact hall kv.1 hmem (by rw [mapIndex_of_mem data kv hnd hkv]; exact hnil)

/-- C5: when every project of the decoded mapping has at least one release node,
`releases` sends the newline-join of exactly one line per project, the projects taken in
strictly increasing byte-wise order of their keys, each line being
`"*" + key + "*: [" + tagName + "](" + url + ") - " + relative time` built from the first
release node of the project; lines without line break give a reply of exactly that many
lines; and for the six keys of the query the order is cm, ggr, ggr_ui, moon, selenoid,
selenoid_ui, six lines. -/
theorem releases_sends_sorted_lines (humanize : Int → Int → String) (now : Int)
    (data : ResultData) (hnd : (data.map Prod.fst).Nodup)
    (hne : ∀ kv ∈ data, kv.2.Releases.Nodes ≠ []) :
    ∃ (entries : List (String × repo)) (lines : List String),
      entries.Perm data ∧
      (entries.map Prod.fst).Pairwise (fun a b => stringLess a b = true) ∧
      List.Forall₂ (fun kv line => ∃ rel rest, kv.2.Releases.Nodes = rel :: rest ∧
          line = "*" ++ kv.1 ++ "*: [" ++ rel.Tag.Name ++ "](" ++ rel.Url ++ ") - "
            ++ humanize now rel.PublishedAt) entries lines ∧
      releases humanize now (Upstream.decoded data)
        = Except.ok (some ("\n".intercalate lines)) ∧
      ((∀ line ∈ lines, Char.ofNat 10 ∉ line.data) →
        ("\n".intercalate lines).data.count (Char.ofNat 10) = lines.length - 1) ∧
      ((data.map Prod.fst).Perm ["selenoid", "moon", "cm", "selenoid_ui", "ggr", "ggr_ui"] →
        entries.map Prod.fst = ["cm", "ggr", "ggr_ui", "moon", "selenoid", "selenoid_ui"] ∧
        lines.length = 6) := by
  obtain ⟨lines, hl, hs⟩ := sortAndFormat_ok humanize now data hnd hne
  have hkeys : (sortStrings (rangeKeys data)).Perm (data.map Prod.fst) := by
    rw [← rangeKeys_eq_map]
    exact sortStrings_perm _
  have hmap : ((sortStrings (rangeKeys data)).map (fun k => (k, mapIndex data k))).map Prod.fst
      = sortStrings (rangeKeys data) := by
    rw [List.map_map]
    exact (List.map_congr_left (fun _ _ => rfl)).trans (List.map_id _)
  refine ⟨(sortStrings (rangeKeys data)).map (fun k => (k, mapIndex data k)), lines,
    entries_perm data hnd _ hkeys, ?_, ?_, ?_, ?_, ?_⟩
  · rw [hmap]
    apply sortStrings_strict
    rw [rangeKeys_eq_map]
    exact hnd
  · rw [List.forall₂_map_left_iff]
    exact hl
  · simp [releases, hs, stringsJoin_eq_intercalate]
  · intro h
    rw [← stringsJoin_eq_intercalate]
    exact count_newline_stringsJoin lines h
  · intro hsix
    rw [hmap]
    have h6 : sortStrings (rangeKeys data)
        = ["cm", "ggr", "ggr_ui", "moon", "selenoid", "selenoid_ui"] := by
      rw [rangeKeys_eq_map, sortStrings_congr hsix]
      decide
    refine ⟨h6, ?_⟩
    rw [← hl.length_eq, h6]
    rfl

/-- C5 at the six projects of the query, enumerated in the order of the query, three days
after the releases: six lines in the order cm, ggr, ggr_ui, moon, selenoid,
selenoid_ui. -/
theorem releases_sends_sorted_lines_witness :
    (sixProjectData.map Prod.fst).Nodup ∧
    (∀ kv ∈ sixProjectData, kv.2.Releases.Nodes ≠ []) ∧
    (∃ lines : List String, lines.length = 6 ∧
      releases humanizeTime (3 * day) (Upstream.decoded sixProjectData)
        = Except.ok (some ("\n".intercalate lines))) ∧
    releases humanizeTime (3 * day) (Upstream.decoded sixProjectData)
      = Except.ok (some ("*cm*: [1.8.5](https://example.org/1.8.5) - 3 days ago\n"
          ++ "*ggr*: [1.7.2](https://example.org/1.7.2) - 3 days ago\n"
          ++ "*ggr_ui*: [1.2.0](https://example.org/1.2.0) - 3 days ago\n"
          ++ "*moon*: [2.7.2](https://example.org/2.7.2) - 3 days ago\n"
          ++ "*selenoid*: [1.11.3](https://example.org/1.11.3) - 3 days ago\n"
          ++ "*selenoid_ui*: [1.10.11](https://example.org/1.10.11) - 3 days ago")) := by
  have hnd : (sixProjectData.map Prod.fst).Nodup := by decide
  have hne : ∀ kv ∈ sixProjectData, kv.2.Releases.Nodes ≠ [] := by decide
  obtain ⟨_, lines, _, _, _, hs, _, h6⟩ :=
    releases_sends_sorted_lines humanizeTime (3 * day) sixProjectData hnd hne
  exact ⟨hnd, hne, ⟨lines, (h6 (List.Perm.refl _)).2, hs⟩, rfl⟩

/-! ## The release fetcher: independence of the iteration order -/

/-- C6: two enumerations of the same mapping, at the same clock reading, give the same
outcome of the sort-and-format stage (the same reply string); the sorted keys are the
same and strictly increasing, and a reply consists of one line per key in that order. -/
theorem reply_independent_of_iteration_order (humanize : Int → Int → String) (now : Int)
    (d1 d2 : ResultData) (hnd : (d1.map Prod.fst).Nodup) (hperm : d1.Perm d2) :
    sortAndFormat humanize now d1 = sortAndFormat humanize now d2 ∧
    sortStrings (rangeKeys d1) = sortStrings (rangeKeys d2) ∧
    (sortStrings (rangeKeys d1)).Pairwise (fun a b => stringLess a b = true) ∧
    (∀ s, sortAndFormat humanize now d1 = Except.ok s →
      ∃ lines : List String,
        List.Forall₂ (fun name line => ∃ rel rest,
            (mapIndex d1 name).Releases.Nodes = rel :: rest ∧
            line = releaseLine humanize now name rel) (sortStrings (rangeKeys d1)) lines ∧
        s = "\n".intercalate lines) := by
  have hkeys : sortStrings (rangeKeys d1) = sortStrings (rangeKeys d2) := by
    rw [rangeKeys_eq_map, rangeKeys_eq_map]
    exact sortStrings_congr (hperm.map Prod.fst)
  refine ⟨?_, hkeys, ?_, ?_⟩
  · unfold sortAndFormat
    rw [← hkeys, formatLoop_congr humanize now (mapIndex_perm hnd hperm)]
  · apply sortStrings_strict
    rw [rangeKeys_eq_map]
    exact hnd
  · intro s hs
    rcases formatLoop_spec humanize now d1 (sortStrings (rangeKeys d1)) [] with
      ⟨_, he⟩ | ⟨lines, hl, he⟩
    · simp [sortAndFormat, he] at hs
    · refine ⟨lines, hl, ?_⟩
      simp only [sortAndFormat, he, List.nil_append, Except.ok.injEq] at hs
      rw [← hs, stringsJoin_eq_intercalate]

/-- C6 at the six projects enumerated in the order of the query and in the reverse
order. -/
theorem reply_independent_of_iteration_order_witness :
    (sixProjectData.map Prod.fst).Nodup ∧
    sortAndFormat humanizeTime (3 * day) sixProjectData
      = sortAndFormat humanizeTime (3 * day) sixProjectData.reverse ∧
    sortStrings (rangeKeys sixProjectData)
      = ["cm", "ggr", "ggr_ui", "moon", "selenoid", "selenoid_ui"] :=
  ⟨by decide,
   (reply_independent_of_iteration_order humanizeTime (3 * day) sixProjectData
      sixProjectData.reverse (by decide) (List.reverse_perm _).symm).1,
   by decide⟩

/-! ## The release fetcher: a project without releases -/

/-- C7 fails on the code: for a decoded response in which project `cm` has an empty
release list, `releases` panics with an index out of range instead of omitting the line
or producing no result, and the handler body of a `releases` command ends with that
panic instead of a reply. -/
theorem releases_panics_on_empty_release_list :
    emptyProjectData = [("ggr", oneRelease "1.7.2"), ("cm", { Releases := { Nodes := [] } })] ∧
    releases humanizeTime (3 * day) (Upstream.decoded emptyProjectData)
      = Except.error Fault.indexOutOfRange ∧
    handleUpdate humanizeTime emptyProjectEnv { Message := some releasesMessage }
      = { effects := [Effect.goReleases], blocked := 1000000000,
          fault := some Fault.indexOutOfRange } := by
  refine ⟨rfl, rfl, rfl⟩

/-! ## The release fetcher: dependence on the clock -/

theorem formatLoop_clock (humanize : Int → Int → String) (now1 now2 : Int)
    (data : ResultData) :
    ∀ (names repos : List String),
      (∀ name ∈ names, ∀ rel rest, (mapIndex data name).Releases.Nodes = rel :: rest →
        humanize now1 rel.PublishedAt = humanize now2 rel.PublishedAt) →
      formatLoop humanize now1 data names repos = formatLoop humanize now2 data names repos
  | [], _, _ => rfl
  | name :: rest, repos, h => by
    cases hn : (mapIndex data name).Releases.Nodes with
    | nil => simp [formatLoop, hn]
    | cons rel more =>
      have hrel := h name (List.mem_cons_self _ _) rel more hn
      simp only [formatLoop, hn, releaseLine, hrel]
      exact formatLoop_clock humanize now1 now2 data rest _
        (fun k hk => h k (List.mem_cons_of_mem _ hk))

/-- C8, as stated, fails: the same upstream data gives the reply text `... - now` when
the command runs at the moment of publication and `... - 3 days ago` when it runs three
days later. -/
theorem reply_text_depends_on_clock :
    releases humanizeTime 0 (Upstream.decoded oneProjectData)
      = Except.ok (some "*cm*: [1.8.5](https://example.org/1.8.5) - now") ∧
    releases humanizeTime (3 * day) (Upstream.decoded oneProjectData)
      = Except.ok (some "*cm*: [1.8.5](https://example.org/1.8.5) - 3 days ago") ∧
    releases humanizeTime 0 (Upstream.decoded oneProjectData)
      ≠ releases humanizeTime (3 * day) (Upstream.decoded oneProjectData) := by
  have h1 : releases humanizeTime 0 (Upstream.decoded oneProjectData)
      = Except.ok (some "*cm*: [1.8.5](https://example.org/1.8.5) - now") := rfl
  have h2 : releases humanizeTime (3 * day) (Upstream.decoded oneProjectData)
      = Except.ok (some "*cm*: [1.8.5](https://example.org/1.8.5) - 3 days ago") := rfl
  refine ⟨h1, h2, ?_⟩
  intro h
  rw [h1, h2] at h
  exact absurd (Option.some.inj (Except.ok.inj h)) (by decide)

/-- C8, amended: two runs of `releases` that receive the same upstream outcome (for a
decoded mapping: the same mapping, in whatever order it is enumerated) have the same
result, hence the same reply text, when the relative-time phrase of the first release of
every project is the same at the two clock readings, in particular when the two readings
are equal. -/
theorem reply_text_same_when_phrases_agree (humanize : Int → Int → String)
    (now1 now2 : Int) (d1 d2 : ResultData) (hnd : (d1.map Prod.fst).Nodup)
    (hperm : d1.Perm d2)
    (hphrase : ∀ kv ∈ d1, ∀ rel rest, kv.2.Releases.Nodes = rel :: rest →
      humanize now1 rel.PublishedAt = humanize now2 rel.PublishedAt) :
    releases humanize now1 (Upstream.decoded d1)
      = releases humanize now2 (Upstream.decoded d2) ∧
    (∀ u : Upstream, (∀ d, u ≠ Upstream.decoded d) →
      releases humanize now1 u = releases humanize now2 u) := by
  constructor
  · have hkeys : sortStrings (rangeKeys d1) = sortStrings (rangeKeys d2) := by
      rw [rangeKeys_eq_map, rangeKeys_eq_map]
      exact sortStrings_congr (hperm.map Prod.fst)
    have hloop : formatLoop humanize now1 d1 (sortStrings (rangeKeys d1)) []
        = formatLoop humanize now2 d2 (sortStrings (rangeKeys d2)) [] := by
      rw [← hkeys, ← formatLoop_congr humanize now2 (mapIndex_perm hnd hperm)]
      apply formatLoop_clock
      intro name hname rel rest hn
      have hkey : name ∈ d1.map Prod.fst := by
        rw [← rangeKeys_eq_map]
        exact (sortStrings_perm _).mem_iff.mp hname
      obtain ⟨kv, hkv, rfl⟩ := List.mem_map.mp hkey
      rw [mapIndex_of_mem d1 kv hnd hkv] at hn
      exact hphrase kv hkv rel rest hn
    simp only [releases, sortAndFormat, hloop]
  · intro u hu
    cases u with
    | decoded d => exact absurd rfl (hu d)
    | marshalError => rfl
    | requestError => rfl
    | transportError => rfl
    | decodeError => rfl

/-- The amended C8 at two different moments of the same day: three days, and three days
and one hour, after the release. -/
theorem reply_text_same_when_phrases_agree_witness :
    releases humanizeTime (3 * day) (Upstream.decoded oneProjectData)
      = releases humanizeTime (3 * day + hour) (Upstream.decoded oneProjectData) :=
  (reply_text_same_when_phrases_agree humanizeTime (3 * day) (3 * day + hour)
    oneProjectData oneProjectData (by decide) (List.Perm.refl _)
    (by
      intro kv hkv rel rest hn
      simp only [oneProjectData, List.mem_singleton] at hkv
      subst hkv
      simp only [oneRelease, List.cons.injEq] at hn
      rw [← hn.1]
      decide)).1

/-! ## The command branch: reply or time-out -/

theorem selectResult_early (tie : Bool) (t : Nat) (s : String) (h : t < timeout) :
    selectResult tie (some (t, s)) = some s := by
  simp [selectResult, h]

theorem selectResult_late (tie : Bool) (t : Nat) (s : String) (h : timeout < t) :
    selectResult tie (some (t, s)) = none := by
  have h1 : ¬ t < timeout := by omega
  have h2 : ¬ t = timeout := by omega
  simp [selectResult, h1, h2]

/-- C9: one `releases` command for message `m` (chat `m.Chat.ID`, message
`m.MessageID`), as a function of what the fetcher delivers and when.  The timer is ten
seconds.  A string delivered before the timer gives exactly one message, with that chat,
that text, the reply linkage to `m` and Markdown parse mode; nothing delivered, or a
string delivered after the timer, gives no message; a marshal, request, transport or
decode failure makes `releases` deliver nothing; and the case of the switch starts one
fetch and then sends either nothing or that one reply, nothing else. -/
theorem releases_command_outcome (humanize : Int → Int → String) (env : FetchEnv)
    (m : Message) :
    timeout = 10 * 1000000000 ∧
    (∀ tie t s, t < timeout →
      awaitResult tie m (some (t, s)) =
        [{ ChatID := m.Chat.ID, Text := s, ReplyToMessageID := m.MessageID,
           ParseMode := "Markdown" }]) ∧
    (∀ tie, awaitResult tie m none = []) ∧
    (∀ tie t s, timeout < t → awaitResult tie m (some (t, s)) = []) ∧
    (∀ u, (u = Upstream.marshalError ∨ u = Upstream.requestError ∨
        u = Upstream.transportError ∨ u = Upstream.decodeError) →
      releases humanize env.now u = Except.ok none) ∧
    (∀ s, releases humanize env.now env.upstream = Except.ok (some s) →
      env.latency < timeout →
      (releasesCase humanize env m).effects =
        [Effect.goReleases,
         Effect.send { ChatID := m.Chat.ID, Text := s, ReplyToMessageID := m.MessageID,
                       ParseMode := "Markdown" }]) ∧
    ((releases humanize env.now env.upstream = Except.ok none ∨ timeout < env.latency) →
      (releasesCase humanize env m).effects = [Effect.goReleases]) ∧
    ((releasesCase humanize env m).effects = [Effect.goReleases] ∨
      ∃ s, (releasesCase humanize env m).effects =
        [Effect.goReleases,
         Effect.send { ChatID := m.Chat.ID, Text := s, ReplyToMessageID := m.MessageID,
                       ParseMode := "Markdown" }]) := by
  refine ⟨rfl, ?_, ?_, ?_, ?_, ?_, ?_, ?_⟩
  · intro tie t s h
    simp [awaitResult, selectResult_early tie t s h, replyMessage, NewMessage, ModeMarkdown]
  · intro tie
    simp [awaitResult, selectResult]
  · intro tie t s h
    simp [awaitResult, selectResult_late tie t s h]
  · intro u hu
    rcases hu with h | h | h | h <;> subst h <;> rfl
  · intro s hs hlat
    simp [releasesCase, hs, awaitResult, selectResult_early _ _ s hlat, replyMessage,
      NewMessage, ModeMarkdown]
  · intro h
    rcases h with h | h
    · simp [releasesCase, h, awaitResult, selectResult]
    · cases hr : releases humanize env.now env.upstream with
      | error e => simp [releasesCase, hr]
      | ok r =>
        cases r with
        | none => simp [releasesCase, hr, awaitResult, selectResult]
        | some s => simp [releasesCase, hr, awaitResult, selectResult_late _ _ s h]
  · rcases releasesCase_effects_cases humanize env m with h | ⟨s, h⟩
    · exact Or.inl h
    · exact Or.inr ⟨s, by simpa [replyMessage, NewMessage, ModeMarkdown] using h⟩

/-! ## The consumer loop: the wait blocks the next update -/

/-- C10, as stated, fails: a `releases` command arrives at second 5 while the data source
answers only after sixty seconds, and another update arrives at second 6; no reply is
sent for the command, but the loop starts on the second update at second 15, which is
not before the end of the ten-second window of the command. -/
theorem next_update_waits_for_timer :
    consume humanizeTime 0
      [{ time := 5000000000, update := { Message := some releasesMessage }, env := slowEnv },
       { time := 6000000000, update := { Message := some plainMessage }, env := promptEnv }]
      = [{ start := 5000000000, effects := [Effect.goReleases] },
         { start := 15000000000, effects := [] }] ∧
    ¬ (15000000000 < 5000000000 + timeout) := by
  refine ⟨rfl, by decide⟩

/-- The effects made before `select` are the first effects of the body. -/
theorem effectsBeforeSelect_prefix (humanize : Int → Int → String) (env : FetchEnv)
    (update : Update) :
    ∃ more, (handleUpdate humanize env update).effects = effectsBeforeSelect update ++ more := by
  cases hm : update.Message with
  | none => exact ⟨[], by simp [handleUpdate, effectsBeforeSelect, hm]⟩
  | some m =>
    simp only [handleUpdate, effectsBeforeSelect, hm, commandBranch]
    split_ifs
    · rcases releasesCase_effects_cases humanize env m with h | ⟨s, h⟩
      · exact ⟨[], by simp [h]⟩
      · exact ⟨[Effect.send (replyMessage m s)], by simp [h]⟩
    · exact ⟨[], by simp⟩
    · exact ⟨[], by simp⟩

/-- While the process is alive, the loop starts on the next update as soon as the update
has arrived and the goroutine is free. -/
theorem consumeFrom_head (humanize : Int → Int → String) (clock : Nat)
    (crashAt : Option Nat) (a : Arrival) (rest : List Arrival)
    (halive : terminatedBy crashAt (max clock a.time) = false) :
    ∃ (effects : List Effect) (tail : List Handled),
      consumeFrom humanize clock crashAt (a :: rest)
        = { start := max clock a.time, effects := effects } :: tail ∧
      (effects = (handleUpdate humanize a.env a.update).effects ∨
        effects = effectsBeforeSelect a.update) := by
  rw [consumeFrom]
  simp only [halive, Bool.false_eq_true, if_false]
  split
  · exact ⟨_, _, rfl, Or.inr rfl⟩
  · exact ⟨_, _, rfl, Or.inl rfl⟩

/-- One iteration of the loop during which the process is not terminated. -/
theorem consumeFrom_cons_alive (humanize : Int → Int → String) (clock : Nat)
    (crashAt : Option Nat) (a : Arrival) (rest : List Arrival) (o : Outcome)
    (crashNext : Option Nat)
    (ho : handleUpdate humanize a.env a.update = o)
    (hc : crashNext = match o.fault with
      | some _ => earliestCrash crashAt (max clock a.time + a.env.latency)
      | none => crashAt)
    (halive : terminatedBy crashAt (max clock a.time) = false)
    (hthen : terminatedBy crashNext (max clock a.time + o.blocked) = false) :
    consumeFrom humanize clock crashAt (a :: rest)
      = { start := max clock a.time, effects := o.effects } ::
        consumeFrom humanize (max clock a.time + o.blocked) crashNext rest := by
  subst ho hc
  rw [consumeFrom]
  simp only [halive, hthen, Bool.false_eq_true, if_false]

/-- A panic that comes after the timer: the command of second 5 has a fetch that panics
at second 65; the update of second 6 is handled at second 15, the update of second 70 is
not handled any more. -/
theorem late_panic_lets_the_loop_go_on :
    consume humanizeTime 0
      [{ time := 5000000000, update := { Message := some releasesMessage },
         env := slowEmptyProjectEnv },
       { time := 6000000000, update := { Message := some emptyJoinMessage }, env := promptEnv },
       { time := 70000000000, update := { Message := some emptyJoinMessage }, env := promptEnv }]
      = [{ start := 5000000000, effects := [Effect.goReleases] },
         { start := 15000000000,
           effects := [Effect.send (NewMessage (-100) ("Hey, \n" ++ welcome))] }] := by
  rfl

/-- C10, amended: when a `releases` command is taken at time `t` and the data source does
not respond within ten seconds, the handler body sends no reply for the command (its
effects are the welcome branch and the start of the fetch), and the loop, which waits in
`select` for the ten seconds, starts on an update that arrived in the meantime exactly
at `t` plus ten seconds, not before. -/
theorem consumer_blocks_until_timer (humanize : Int → Int → String) (clock t : Nat)
    (env : FetchEnv) (m : Message) (next : Arrival) (rest : List Arrival)
    (hclock : clock ≤ t) (hcmd : m.IsCommand = true) (hname : m.Command = "releases")
    (hslow : timeout < env.latency) (hnext : next.time ≤ t + timeout) :
    ∃ (effects : List Effect) (tail : List Handled),
      consume humanize clock
        ({ time := t, update := { Message := some m }, env := env } :: next :: rest)
      = { start := t, effects := welcomeBranch m ++ [Effect.goReleases] } ::
        { start := t + timeout, effects := effects } :: tail ∧
      (effects = (handleUpdate humanize next.env next.update).effects ∨
        effects = effectsBeforeSelect next.update) := by
  have h1 : max clock t = t := Nat.max_eq_right hclock
  have h2 : max (t + timeout) next.time = t + timeout := Nat.max_eq_left hnext
  have hmin : min env.latency timeout = timeout := Nat.min_eq_right (Nat.le_of_lt hslow)
  cases hr : releases humanize env.now env.upstream with
  | error e =>
    have hbody : handleUpdate humanize env { Message := some m }
        = { effects := welcomeBranch m ++ [Effect.goReleases], blocked := timeout,
            fault := some e } := by
      simp [handleUpdate, commandBranch, hcmd, hname, releasesCommand, releasesCase, hr, hmin]
    have halive : terminatedBy (some (t + env.latency)) (t + timeout) = false := by
      simp only [terminatedBy, decide_eq_false_iff_not]
      omega
    have hstep := consumeFrom_cons_alive humanize clock none
      { time := t, update := { Message := some m }, env := env } (next :: rest) _
      (some (t + env.latency)) hbody (by simp [earliestCrash, h1]) rfl
      (by simpa only [h1] using halive)
    obtain ⟨effects, tail, htail, heff⟩ :=
      consumeFrom_head humanize (t + timeout) (some (t + env.latency)) next rest
        (by rw [h2]; exact halive)
    refine ⟨effects, tail, ?_, heff⟩
    rw [consume, hstep]
    simp only [h1]
    rw [htail, h2]
  | ok r =>
    have hsel : selectResult env.timerFirst (r.map (fun s => (env.latency, s))) = none := by
      cases r with
      | none => rfl
      | some s => exact selectResult_late _ _ s hslow
    have hbody : handleUpdate humanize env { Message := some m }
        = { effects := welcomeBranch m ++ [Effect.goReleases], blocked := timeout,
            fault := none } := by
      simp [handleUpdate, commandBranch, hcmd, hname, releasesCommand, releasesCase, hr,
        awaitResult, hsel]
    have hstep := consumeFrom_cons_alive humanize clock none
      { time := t, update := { Message := some m }, env := env } (next :: rest) _
      none hbody rfl rfl rfl
    obtain ⟨effects, tail, htail, heff⟩ :=
      consumeFrom_head humanize (t + timeout) none next rest rfl
    refine ⟨effects, tail, ?_, heff⟩
    rw [consume, hstep]
    simp only [h1]
    rw [htail, h2]

/-- The amended C10 at the command of second 5, whose fetch panics at second 65, and the
update of second 6: no reply, and the second update is started at second 15. -/
theorem consumer_blocks_until_timer_witness :
    ∃ tail : List Handled,
      consume humanizeTime 0
        [{ time := 5000000000, update := { Message := some releasesMessage },
           env := slowEmptyProjectEnv },
         { time := 6000000000, update := { Message := some plainMessage }, env := promptEnv }]
      = { start := 5000000000, effects := [Effect.goReleases] } ::
        { start := 15000000000, effects := [] } :: tail := by
  obtain ⟨effects, tail, h, heff⟩ :=
    consumer_blocks_until_timer humanizeTime 0 5000000000 slowEmptyProjectEnv releasesMessage
      { time := 6000000000, update := { Message := some plainMessage }, env := promptEnv } []
      (by decide) rfl rfl (by decide) (by decide)
  have he : effects = [] := by
    rcases heff with h2 | h2 <;> exact h2
  subst he
  exact ⟨tail, h⟩

end Aerokubot
